import Mathlib

/-!
Verification of the aillm RAG runtime against its specification.

This development shallowly embeds the parts of the `aillm` Go library
(controller/llm.go, controller/embeddingtools.go, the embedding pipeline,
the hybrid/lexical retrievers and the safety classifier) that the audited
claims are about, and settles each claim against the embedding.

Strings are modelled as `List Char`.  Go indexes bytes; everywhere the code
inspects a single byte it compares it against an ASCII byte (`'@'`, `' '`),
and a UTF-8 continuation or leading byte of a multi-byte character never
equals an ASCII byte, so the character-level model agrees with the
byte-level code on well-formed UTF-8 input.  Where a byte *length* matters
(the lexical tokenizer) the model uses the UTF-8 byte size of the token.
-/

namespace Aillm

/-! ## Character/string primitives (Go strings package, character-level) -/

/-- Go `unicode.IsSpace` restricted to the ASCII whitespace characters
(the only ones the audited inputs contain). -/
def isSpaceChar (c : Char) : Bool :=
  c = ' ' || c = '\t' || c = '\n' || c = '\x0b' || c = '\x0c' || c = '\r'

/-- Go `strings.TrimSpace` (character-level). -/
def trimSpaceL (l : List Char) : List Char :=
  ((l.dropWhile isSpaceChar).reverse.dropWhile isSpaceChar).reverse

/-- Go `strings.Fields`: split on whitespace runs, dropping empty pieces. -/
def fieldsL (l : List Char) : List (List Char) :=
  (l.splitOnP isSpaceChar).filter (fun w => !w.isEmpty)

/-- Fuel-driven worker for `splitOnL`; the fuel bounds the number of
consumed characters, so `length l + 1` always suffices. -/
def splitOnAux (sep : List Char) : Nat → List Char → List Char → List (List Char)
  | 0, l, cur => [cur.reverse ++ l]
  | _ + 1, [], cur => [cur.reverse]
  | fuel + 1, c :: rest, cur =>
    if sep.isPrefixOf (c :: rest) then
      cur.reverse :: splitOnAux sep fuel ((c :: rest).drop sep.length) []
    else
      splitOnAux sep fuel rest (c :: cur)

/-- Go `strings.Split(l, sep)` for a non-empty separator: split around
non-overlapping left-to-right occurrences of `sep`, keeping empty pieces. -/
def splitOnL (sep l : List Char) : List (List Char) :=
  if sep.isEmpty then [l] else splitOnAux sep (l.length + 1) l []

/-- Worker for `splitRuns`.  Mode `false` accumulates the current word
(reversed) while mode `true` skips a delimiter run. -/
def splitRunsAux (delim : Char → Bool) : Bool → List Char → List Char → List (List Char)
  | false, cur, [] => [cur.reverse]
  | false, cur, c :: rest =>
    if delim c then cur.reverse :: splitRunsAux delim true [] rest
    else splitRunsAux delim false (c :: cur) rest
  | true, _, [] => [[]]
  | true, _, c :: rest =>
    if delim c then splitRunsAux delim true [] rest
    else splitRunsAux delim false [c] rest

/-- Go `regexp.MustCompile("[...]+").Split(l, -1)`: split around maximal
runs of delimiter characters, keeping the empty boundary pieces exactly as
the regexp split does. -/
def splitRuns (delim : Char → Bool) (l : List Char) : List (List Char) :=
  splitRunsAux delim false [] l

/-- Go `strings.Contains(haystack, needle)` test, first argument the
needle. -/
def isInfixOfL (needle : List Char) : List Char → Bool
  | [] => needle.isEmpty
  | c :: rest => needle.isPrefixOf (c :: rest) || isInfixOfL needle rest

/-- Go `strings.LastIndex(l, " ")` generalised to a character: the index of
the last occurrence, if any. -/
def lastIndexOfChar (c : Char) (l : List Char) : Option Nat :=
  ((l.enum.filter (fun p => p.2 = c)).map (fun p => p.1)).getLast?

/-- UTF-8 byte length of a character-level string: this is exactly Go's
`len(string)`. -/
def utf8Len (l : List Char) : Nat := (l.map Char.utf8Size).sum

/-! ## Key sanitization (controller/embeddingtools.go, sanitizeRedisKey /
deleteRedisWildCard) -/

/-- The character class `[a-zA-Z0-9:_-]` of `sanitizeRedisKey`'s regular
expression. -/
def allowedKeyChar (c : Char) : Bool :=
  ('a' ≤ c && c ≤ 'z') || ('A' ≤ c && c ≤ 'Z') || ('0' ≤ c && c ≤ '9') ||
    c = ':' || c = '_' || c = '-'

/-- `regexp.MustCompile("[^a-zA-Z0-9:_-]").ReplaceAllString(input, "_")`. -/
def replaceDisallowed (l : List Char) : List Char :=
  l.map (fun c => if allowedKeyChar c then c else '_')

/-- Go `strings.ReplaceAll(s, "__", "_")`: a single left-to-right pass over
non-overlapping occurrences of two underscores (the scan resumes after the
inserted replacement, so runs of three or more underscores are not fully
collapsed). -/
def collapseUnderscorePairs : List Char → List Char
  | [] => []
  | [c] => [c]
  | c₁ :: c₂ :: rest =>
    if c₁ = '_' ∧ c₂ = '_' then '_' :: collapseUnderscorePairs rest
    else c₁ :: collapseUnderscorePairs (c₂ :: rest)

/-- Go `strings.Trim(s, "_")` acting on the trailing end. -/
def dropTrailingUnderscores (l : List Char) : List Char :=
  (l.reverse.dropWhile (fun c => c = '_')).reverse

/-- Go `strings.Trim(s, "_")`: remove every leading and trailing
underscore (modelled as trailing-trim then leading-trim, which is the same
set of removals). -/
def trimUnderscores (l : List Char) : List Char :=
  (dropTrailingUnderscores l).dropWhile (fun c => c = '_')

/-- `sanitizeRedisKey` from controller/embeddingtools.go: replace every
character outside `[a-zA-Z0-9:_-]` with `_`, run one
`ReplaceAll("__", "_")` pass, then trim leading and trailing `_`. -/
def sanitizeRedisKey (l : List Char) : List Char :=
  trimUnderscores (collapseUnderscorePairs (replaceDisallowed l))

/-! ## Fixed-size pre-chunking (controller/embeddingtools.go,
splitTextIntoFixedSizedChunks) -/

/-- One loop of `splitTextIntoFixedSizedChunks`, with fuel.  `none` means
the fuel ran out, i.e. the Go loop performed more iterations than the fuel
allows; since each productive Go iteration advances `start`, a terminating
run needs at most `length + 1` iterations. -/
def fixedChunksAux (raw : List Char) (chunkSize : Nat) :
    Nat → Nat → List (List Char) → Option (List (List Char))
  | 0, _, _ => none
  | fuel + 1, start, acc =>
    if start < raw.length then
      let e0 := min (start + chunkSize) raw.length
      let chunk0 := (raw.drop start).take (e0 - start)
      let step : Nat × List Char :=
        if e0 < raw.length ∧ raw.get? e0 ≠ some ' ' then
          match lastIndexOfChar ' ' chunk0 with
          | some lastSpace => (start + lastSpace, (raw.drop start).take lastSpace)
          | none => (e0, chunk0)
        else (e0, chunk0)
      fixedChunksAux raw chunkSize fuel step.1 (acc ++ [trimSpaceL step.2])
    else some acc

/-- `splitTextIntoFixedSizedChunks` from controller/embeddingtools.go,
lines 74-111, with explicit fuel standing for the number of loop
iterations the Go code is allowed to make. -/
def splitTextIntoFixedSizedChunks (raw : List Char) (chunkSize : Nat) (fuel : Nat) :
    Option (List (List Char)) :=
  if raw.length ≤ chunkSize then some [raw]
  else fixedChunksAux raw chunkSize fuel 0 []

/-! ## Safety classifier (IsQuerySafe) -/

/-- The three observable outcomes of the classifier call inside
`IsQuerySafe`: the LLM client construction fails, the generate call fails,
or the call succeeds with some response content. -/
inductive ClassifierOutcome where
  | clientError
  | generateError
  | success (content : List Char)
deriving DecidableEq

/-- `IsQuerySafe` (src/unnamed/part_010): both error paths return `true`
(treat the query as safe); on success the verdict is whether the response
content starts with `"1"`. -/
def isQuerySafe : ClassifierOutcome → Bool
  | .clientError => true
  | .generateError => true
  | .success content => ['1'].isPrefixOf content

/-! ## Search-mode dispatch in AskLLM (controller/llm.go lines 362-372) -/

/-- From controller/leollm.go. -/
def SimilaritySearch : Int := 1

/-- From controller/leollm.go. -/
def KNearestNeighbors : Int := 2

/-- Modelled from the spec: the constant `HybridSearch` is declared in
repository code absent from src/ (its value is documented in
HYBRID_SEARCH_README.md and IMPLEMENTATION_SUMMARY.md). -/
def HybridSearch : Int := 4

/-- Modelled from the spec: the constant `LexicalSearch` is declared in
repository code absent from src/ (its value is documented in
HYBRID_SEARCH_README.md and IMPLEMENTATION_SUMMARY.md). -/
def LexicalSearch : Int := 5

/-- Modelled from the spec: the constant `SemanticSearch` is declared in
repository code absent from src/ (its value is documented in
HYBRID_SEARCH_README.md and IMPLEMENTATION_SUMMARY.md). -/
def SemanticSearch : Int := 6

/-- The retrieval routine AskLLM actually runs. -/
inductive ExecutedSearch where
  | similarity
  | knn
deriving DecidableEq

/-- The `switch llm.SearchAlgorithm` dispatch of AskLLM
(controller/llm.go lines 362-372).  The first argument is the
container-level `llm.SearchAlgorithm` field; the second is the per-request
`o.SearchAlgorithm` set by `WithSearchAlgorithm` and friends
(controller/persistentmemory.go lines 539-590), which the switch never
reads. -/
def askLLMDispatch (containerSearchAlgorithm _optionSearchAlgorithm : Int) :
    Except String ExecutedSearch :=
  if containerSearchAlgorithm = SimilaritySearch then .ok .similarity
  else if containerSearchAlgorithm = KNearestNeighbors then .ok .knn
  else .error "unknown search algorithm"

/-! ## Lexical retriever (src/unnamed/part_017, performLexicalSearch) -/

/-- The delimiter class of the word-splitting regular expression
`[ ,\.]+` in `performLexicalSearch`. -/
def lexDelim (c : Char) : Bool := c = ' ' || c = ',' || c = '.'

/-- Left brace written via its code point to keep it out of string
literals. -/
def lbrace : Char := Char.ofNat 123

/-- Right brace written via its code point. -/
def rbrace : Char := Char.ofNat 125

/-- Apostrophe character. -/
def apostropheChar : Char := Char.ofNat 39

/-- Double-quote character. -/
def quoteChar : Char := Char.ofNat 34

/-- The special characters escaped by `escapeRedisSearchQuery`
(src/unnamed/part_017 lines 396-441), other than the backslash which is
doubled first. -/
def redisEscapeSpecials : List Char :=
  ['@', '(', ')', '[', ']', lbrace, rbrace, '*', '+', '?', '|', '^', '$',
   '-', '=', '~', ':', ';', '!', '#', '%', '&', apostropheChar, quoteChar, '/']

/-- `escapeRedisSearchQuery`: the backslash-doubling pass followed by one
`ReplaceAll` per special character.  Since every replacement value consists
of a backslash (already processed and skipped thereafter) plus the key
character itself, the net effect is this character-wise escaping,
independent of Go's randomized map iteration order. -/
def escapeRedisSearchQuery (l : List Char) : List Char :=
  l.flatMap (fun c => if c = '\\' ∨ c ∈ redisEscapeSpecials then ['\\', c] else [c])

/-- The token stream `performLexicalSearch` draws its keywords from: the
query is split on newlines, then each line on runs of space, comma and
period. -/
def lexicalTokens (query : List Char) : List (List Char) :=
  (splitOnL ['\n'] query).flatMap (fun line => splitRuns lexDelim line)

/-- The keyword list built by `performLexicalSearch` lines 317-328: every
token whose Go byte length exceeds 2 is escaped and kept, in order. -/
def lexicalKeywords (query : List Char) : List (List Char) :=
  (splitOnL ['\n'] query).flatMap (fun line =>
    (splitRuns lexDelim line).filterMap (fun w =>
      if 2 < utf8Len w then some (escapeRedisSearchQuery w) else none))

/-- One `(@content:*token*)` fragment of the FT query. -/
def lexFragment (kw : List Char) : List Char :=
  "(@content:*".data ++ kw ++ "*)".data

/-- The OR query `performLexicalSearch` composes (lines 331-337): the
fragments joined by `" | "`, later fragments each preceded by the
separator. -/
def buildLexicalQuery : List (List Char) → List Char
  | [] => []
  | [kw] => lexFragment kw
  | kw :: kws => lexFragment kw ++ " | ".data ++ buildLexicalQuery kws

/-- The observable search plan of `performLexicalSearch`: `none` when the
composed query is empty (the function returns an empty result list without
issuing `FT.SEARCH`), otherwise the `FT.SEARCH` query string it sends. -/
def performLexicalSearchPlan (query : List Char) : Option (List Char) :=
  let finalSearchQuery := buildLexicalQuery (lexicalKeywords query)
  if finalSearchQuery = [] then none else some finalSearchQuery

/-! ## Hybrid search weight validation and normalization
(src/unnamed/part_017, HybridSearch lines 182-200).  Go float64 values are
modelled as exact rationals; the division below is the Go division, with
the caveat that Go produces NaN for 0/0 where `ℚ` produces 0 — either way
the result differs from 1. -/

structure HybridSearchConfig where
  vectorWeight : ℚ
  lexicalWeight : ℚ
  minVectorScore : ℚ
  minLexicalScore : ℚ
  useRRF : Bool
  rrfConstant : ℚ
  maxResults : Int
deriving DecidableEq

/-- `DefaultHybridSearchConfig` (src/unnamed/part_017 lines 51-61). -/
def DefaultHybridSearchConfig : HybridSearchConfig :=
  { vectorWeight := 7/10, lexicalWeight := 3/10, minVectorScore := 0,
    minLexicalScore := 0, useRRF := false, rrfConstant := 60, maxResults := 50 }

/-- The validation and weight-normalization step at the top of
`HybridSearch`: reject weights outside `[0,1]`, then divide both weights
by their total whenever the total differs from 1. -/
def validateAndNormalizeWeights (c : HybridSearchConfig) :
    Except String HybridSearchConfig :=
  if c.vectorWeight < 0 ∨ 1 < c.vectorWeight then
    .error "vector weight must be between 0 and 1"
  else if c.lexicalWeight < 0 ∨ 1 < c.lexicalWeight then
    .error "lexical weight must be between 0 and 1"
  else if c.vectorWeight + c.lexicalWeight ≠ 1 then
    .ok { c with
          vectorWeight := c.vectorWeight / (c.vectorWeight + c.lexicalWeight),
          lexicalWeight := c.lexicalWeight / (c.vectorWeight + c.lexicalWeight) }
  else .ok c

/-- A config with both weights zero: accepted by the validation. -/
def zeroWeightConfig : HybridSearchConfig :=
  { vectorWeight := 0, lexicalWeight := 0, minVectorScore := 0,
    minLexicalScore := 0, useRRF := false, rrfConstant := 60, maxResults := 50 }

/-- A config whose weights are in range but do not sum to 1, exercising
the normalization branch. -/
def unnormalizedConfig : HybridSearchConfig :=
  { vectorWeight := 1/2, lexicalWeight := 1/4, minVectorScore := 0,
    minLexicalScore := 0, useRRF := false, rrfConstant := 60, maxResults := 50 }

/-! ## LLM-guided chunk post-processing (controller/embeddingtools.go,
SplitTextWithLLM lines 113-154) -/

/-- `trimContent`: `strings.Trim(content, "\n")` followed by
`strings.TrimSpace`. -/
def trimContent (l : List Char) : List Char :=
  trimSpaceL (((l.dropWhile (fun c => c = '\n')).reverse.dropWhile
    (fun c => c = '\n')).reverse)

/-- The `----CHUNK----` block marker. -/
def chunkMarker : List Char := "----CHUNK----".data

/-- The `###keywords:### ` keyword marker (with its trailing space, as in
the `strings.Split` call on line 136). -/
def keywordsMarker : List Char := "###keywords:### ".data

/-- The per-block loop body of `SplitTextWithLLM` (lines 129-150) over the
enumerated blocks of one LLM response.  The accumulators are the result
chunks, the keyword list and the inconsistent blocks.  `none` models the
Go runtime panic: the code reads `content[1]` under the guard
`len(content) > 0`, which always holds, so a block without the keyword
marker makes the index access go out of range. -/
def splitTextWithLLMAux (origText : List Char) :
    List (Nat × List Char) → List (List Char) → List (List Char) →
    List (Nat × List Char) →
    Option (List (List Char) × List (List Char) × List (Nat × List Char))
  | [], chunks, keywords, inconsistent => some (chunks, keywords, inconsistent)
  | (idx, blockRaw) :: rest, chunks, keywords, inconsistent =>
    let chunkItem := trimSpaceL blockRaw
    if (fieldsL chunkItem).length < 3 then
      splitTextWithLLMAux origText rest chunks keywords inconsistent
    else
      let content := splitOnL keywordsMarker chunkItem
      let contentOnly := trimContent (content.headD [])
      let inconsistent' :=
        if isInfixOfL (trimSpaceL contentOnly) origText then inconsistent
        else inconsistent ++ [(idx, chunkItem)]
      match content.get? 1 with
      | some keywordPart =>
        let generated := (splitOnL [','] (trimContent keywordPart)).map trimSpaceL
        splitTextWithLLMAux origText rest (chunks ++ [chunkItem])
          (keywords ++ generated) inconsistent'
      | none => none

/-- Processing of one LLM response inside `SplitTextWithLLM`: split on the
chunk marker and fold the per-block logic; `none` is the out-of-range
panic. -/
def splitTextWithLLMResponse (origText response : List Char) :
    Option (List (List Char) × List (List Char) × List (Nat × List Char)) :=
  splitTextWithLLMAux origText ((splitOnL chunkMarker response).enum) [] [] []

/-! ## Streaming interceptor of AskLLM (controller/llm.go lines 562-600)
and reference extraction (lines 747-751) -/

/-- The reference sentinel `⧉`. -/
def refSentinel : Char := '⧉'

/-- The mutable closure state of the `WithStreamingFunc` callback,
extended with the list of chunks forwarded to the caller's
`o.StreamingFunc`. -/
structure StreamState where
  isFirstWord : Bool
  isFirstChunk : Bool
  startRefs : Bool
  failedToRespond : Bool
  refsStr : List Char
  forwarded : List (List Char)
  totalTokens : Nat
deriving DecidableEq

/-- State at the start of a generation. -/
def initStreamState : StreamState :=
  { isFirstWord := true, isFirstChunk := true, startRefs := false,
    failedToRespond := false, refsStr := [], forwarded := [], totalTokens := 0 }

/-- The first-word processing at the top of the streaming callback
(llm.go lines 577-587): given the current `isFirstWord` and
`failedToRespond` flags, return the possibly-stripped chunk and the two
updated flags.  A chunk whose first byte is `@` (while the flag holds)
marks the response failed and is stripped of that `@`; a chunk whose first
byte is a space clears the flag. -/
def firstWordStep (isFirstWord failedToRespond : Bool) (chunk0 : List Char) :
    List Char × Bool × Bool :=
  if isFirstWord = true ∧ chunk0 ≠ [] then
    let startsWithAt := chunk0.head? = some '@'
    let failed' := if startsWithAt then true else failedToRespond
    let isFirstWord' := if chunk0.head? = some ' ' then false else isFirstWord
    let chunk' :=
      if isFirstWord' = true ∧ startsWithAt then chunk0.tail else chunk0
    (chunk', failed', isFirstWord')
  else (chunk0, failedToRespond, isFirstWord)

/-- The routing at the bottom of the streaming callback (llm.go lines
588-599): divert to the references buffer when the flag is set and
reference mode is on, swallow a chunk equal to the `⧉` sentinel while
setting the flag, otherwise forward to the caller. -/
def routeChunk (ragReferences : Bool) (s1 : StreamState) (chunk : List Char) :
    StreamState :=
  if ragReferences = true ∧ s1.startRefs = true then
    { s1 with refsStr := s1.refsStr ++ chunk }
  else if chunk = [refSentinel] then
    { s1 with startRefs := true }
  else
    { s1 with forwarded := s1.forwarded ++ [chunk] }

/-- One chunk through the streaming callback of AskLLM (lines 571-600):
the token counter and first-chunk bookkeeping, the first-word processing,
then the routing. -/
def streamStep (ragReferences : Bool) (s : StreamState) (chunk0 : List Char) :
    StreamState :=
  let p := firstWordStep s.isFirstWord s.failedToRespond chunk0
  routeChunk ragReferences
    { s with totalTokens := s.totalTokens + 1, isFirstChunk := false,
             failedToRespond := p.2.1, isFirstWord := p.2.2 }
    p.1

/-- Fold the whole token stream through the callback. -/
def runStream (ragReferences : Bool) (chunks : List (List Char)) : StreamState :=
  chunks.foldl (streamStep ragReferences) initStreamState

/-- JSON whitespace. -/
def isJsonWs (c : Char) : Bool := c = ' ' || c = '\n' || c = '\t' || c = '\r'

/-- Skip JSON whitespace. -/
def skipJsonWs (l : List Char) : List Char := l.dropWhile isJsonWs

/-- Accumulating worker of `parseJsonLitString`. -/
def parseJsonLitStringAux : List Char → List Char → Option (List Char × List Char)
  | [], _ => none
  | c :: rest, acc =>
    if c = quoteChar then some (acc.reverse, rest)
    else if c = '\\' then none
    else parseJsonLitStringAux rest (c :: acc)

/-- Parse one escape-free JSON string literal, returning its content and
the remaining input. -/
def parseJsonLitString : List Char → Option (List Char × List Char)
  | c :: rest => if c = quoteChar then parseJsonLitStringAux rest [] else none
  | [] => none

/-- Parse the comma-separated items of a JSON string array up to and
including the closing bracket.  The fuel bounds consumed characters. -/
def parseJsonStringItems : Nat → List Char → Option (List (List Char) × List Char)
  | 0, _ => none
  | fuel + 1, l =>
    match parseJsonLitString (skipJsonWs l) with
    | none => none
    | some (item, rest) =>
      match skipJsonWs rest with
      | ',' :: rest' =>
        match parseJsonStringItems fuel rest' with
        | some (items, r) => some (item :: items, r)
        | none => none
      | ']' :: rest' => some ([item], rest')
      | _ => none

/-- Expect one literal character. -/
def expectChar (c : Char) : List Char → Option (List Char)
  | c' :: rest => if c' = c then some rest else none
  | [] => none

/-- Models `json.Unmarshal(refrencesStr, &llmReference)` for the shape
the code expects — an object with a `references` key holding an array of
escape-free strings (controller/llm.go lines 747-751).  AskLLM ignores the
unmarshal error, so any parse failure leaves the zero value, i.e. an empty
reference list. -/
def parseReferencesCore (l : List Char) : Option (List (List Char)) := do
  let r1 ← expectChar lbrace (skipJsonWs l)
  let (key, r2) ← parseJsonLitString (skipJsonWs r1)
  if key = "references".data then
    let r3 ← expectChar ':' (skipJsonWs r2)
    let r4 ← expectChar '[' (skipJsonWs r3)
    let itemsAndRest ←
      match skipJsonWs r4 with
      | ']' :: r => some (([] : List (List Char)), r)
      | l4 => parseJsonStringItems (l4.length + 1) l4
    let r6 ← expectChar rbrace (skipJsonWs itemsAndRest.2)
    if skipJsonWs r6 = [] then some itemsAndRest.1 else none
  else none

/-- The reference list attached to the result. -/
def parseReferences (l : List Char) : List (List Char) :=
  (parseReferencesCore l).getD []

/-- The part of AskLLM's result the streaming claims talk about. -/
structure AskStreamResult where
  failedToRespond : Bool
  forwarded : List (List Char)
  llmReferences : List (List Char)
deriving DecidableEq

/-- Run a token stream through AskLLM's interceptor and assemble
`FailedToRespond`, the forwarded chunk list and (when `ragReferences` is
on) the parsed `LLMReferences` (controller/llm.go lines 737-751). -/
def askLLMStreamResult (ragReferences : Bool) (chunks : List (List Char)) :
    AskStreamResult :=
  let s := runStream ragReferences chunks
  { failedToRespond := s.failedToRespond, forwarded := s.forwarded,
    llmReferences := if ragReferences then parseReferences s.refsStr else [] }

/-- From the words of claim C1: the first non-space character of the
concatenated stream. -/
def specFirstNonSpaceChar (chunks : List (List Char)) : Option Char :=
  (chunks.flatten.dropWhile (fun c => c = ' ')).head?

/-- A mid-stream interceptor state in which the reference flag is set and
the first-word phase is over. -/
def divertedProbeState : StreamState :=
  { isFirstWord := false, isFirstChunk := false, startRefs := true,
    failedToRespond := false, refsStr := [], forwarded := [], totalTokens := 2 }

/-! ## Embedding store model (src/unnamed/part_013, EmbeddText lines
166-230, and controller/embeddingtools.go deleteRedisWildCard lines
193-220) -/

/-- `LLMEmbeddingContent` (src/unnamed/part_013 lines 38-47). -/
structure LLMEmbeddingContent where
  Text : String
  Title : String
  Language : String
  Id : String
  Keys : List String
  GeneralKeys : List String
  Keywords : List String
  Sources : String
deriving DecidableEq

/-- The Go zero value a map miss yields. -/
def zeroContent : LLMEmbeddingContent :=
  { Text := "", Title := "", Language := "", Id := "", Keys := [],
    GeneralKeys := [], Keywords := [], Sources := "" }

/-- `LLMEmbeddingObject` (src/unnamed/part_013 lines 59-63); the source
field `EmbeddingPrefix` is rendered `EmbeddingPfx`.  The contents map is an
association list whose lookups take the first binding. -/
structure LLMEmbeddingObject where
  EmbeddingPfx : String
  Index : String
  Contents : List (String × LLMEmbeddingContent)
deriving DecidableEq

/-- First-binding lookup in the contents map. -/
def lookupContent (cid : String) (contents : List (String × LLMEmbeddingContent)) :
    Option LLMEmbeddingContent :=
  (contents.find? (fun p => p.1 = cid)).map (fun p => p.2)

/-- The slice of the Redis state EmbeddText touches: the set of live chunk
keys (vector-store documents) and the `rawDocs:...` JSON record for one
`(prefix, index)` pair. -/
structure RedisModel where
  chunks : List String
  rawDoc : Option LLMEmbeddingObject
deriving DecidableEq

/-- Store operations, recorded in execution order. -/
inductive StoreOp where
  | addChunk (key : String)
  | delPattern (pattern : String)
  | saveRecord
deriving DecidableEq

/-- The pattern `deleteRedisWildCard` derives from a key with
`addWildCard = false`: replace characters outside `[a-zA-Z0-9:_-]` with
`_` and run one `ReplaceAll("__", "_")` pass (no trim, no `:*` suffix). -/
def deleteWildCardPattern (k : String) : String :=
  ⟨collapseUnderscorePairs (replaceDisallowed k.data)⟩

/-- `deleteRedisWildCard(client, k, false)`: `KEYS` with the sanitized
pattern — which contains no glob metacharacters, hence matches literally —
followed by `DEL` of every match. -/
def deleteRedisWildCard (s : RedisModel) (k : String) : RedisModel :=
  { s with chunks := s.chunks.filter (fun c => !(c == deleteWildCardPattern k)) }

/-- Delete a list of recorded keys one after the other, as the two loops
in EmbeddText lines 210-215 do. -/
def deleteKeysSeq (s : RedisModel) (ks : List String) : RedisModel :=
  ks.foldl deleteRedisWildCard s

/-- The content record as EmbeddText rewrites it (lines 221-223): the
caller's fields with the generated key lists assigned. -/
def updatedContent (c : LLMEmbeddingContent) (cid : String)
    (nk ng : List String) : LLMEmbeddingContent :=
  { c with Id := cid, Keys := nk, GeneralKeys := ng }

/-- `EmbeddText` (src/unnamed/part_013 lines 166-230) for a content whose
id is already set: load the prior record (absent record gives the empty
object), let `embedText` write the freshly embedded chunks under fresh keys
`newKeys`/`newGeneralKeys` into the scoped and global vector indexes, then
delete every key recorded for this content id, replace the content's key
lists with the new keys, and finally save the record.  The first component
records the store operations in execution order. -/
def EmbeddText (s : RedisModel) (pfx index cid : String)
    (contents : LLMEmbeddingContent) (newKeys newGeneralKeys : List String) :
    List StoreOp × RedisModel :=
  let obj := s.rawDoc.getD { EmbeddingPfx := pfx, Index := index, Contents := [] }
  let s1 : RedisModel := { s with chunks := s.chunks ++ newKeys ++ newGeneralKeys }
  let curContents := (lookupContent cid obj.Contents).getD zeroContent
  let s2 := deleteKeysSeq (deleteKeysSeq s1 curContents.Keys) curContents.GeneralKeys
  let newContent := updatedContent contents cid newKeys newGeneralKeys
  let obj2 := { obj with Contents := (cid, newContent) :: obj.Contents }
  let s3 := { s2 with rawDoc := some obj2 }
  ((newKeys ++ newGeneralKeys).map .addChunk ++
     (curContents.Keys ++ curContents.GeneralKeys).map .delPattern ++
     [.saveRecord],
   s3)

/-! # Supporting lemmas -/

theorem head?_dropWhile_ne (p : Char → Bool) :
    ∀ (l : List Char) (c : Char), (l.dropWhile p).head? = some c → p c = false := by
  intro l
  induction l with
  | nil => simp
  | cons a as ih =>
    intro c h
    rw [List.dropWhile_cons] at h
    by_cases hpa : p a = true
    · rw [if_pos hpa] at h
      exact ih c h
    · rw [if_neg hpa] at h
      simp only [List.head?_cons, Option.some.injEq] at h
      subst h
      exact Bool.eq_false_iff.mpr hpa

theorem collapseUnderscorePairs_subset :
    ∀ l : List Char, collapseUnderscorePairs l ⊆ l
  | [] => by simp [collapseUnderscorePairs]
  | [c] => by simp [collapseUnderscorePairs]
  | c₁ :: c₂ :: rest => by
    have ih1 := collapseUnderscorePairs_subset rest
    have ih2 := collapseUnderscorePairs_subset (c₂ :: rest)
    by_cases h : c₁ = '_' ∧ c₂ = '_'
    · simp only [collapseUnderscorePairs, if_pos h]
      intro x hx
      rcases List.mem_cons.mp hx with hx | hx
      · exact hx ▸ h.1 ▸ List.mem_cons_self _ _
      · exact List.mem_cons_of_mem _ (List.mem_cons_of_mem _ (ih1 hx))
    · simp only [collapseUnderscorePairs, if_neg h]
      intro x hx
      rcases List.mem_cons.mp hx with hx | hx
      · exact hx ▸ List.mem_cons_self _ _
      · exact List.mem_cons_of_mem _ (ih2 hx)

theorem mem_replaceDisallowed (l : List Char) :
    ∀ c ∈ replaceDisallowed l, allowedKeyChar c = true := by
  intro c hc
  simp only [replaceDisallowed, List.mem_map] at hc
  obtain ⟨a, -, rfl⟩ := hc
  by_cases ha : allowedKeyChar a = true
  · rwa [if_pos ha]
  · rw [if_neg ha]; decide

theorem trimUnderscores_subset (l : List Char) : trimUnderscores l ⊆ l := by
  intro c hc
  unfold trimUnderscores dropTrailingUnderscores at hc
  have h1 := (List.dropWhile_suffix _).subset hc
  rw [List.mem_reverse] at h1
  have h2 := (List.dropWhile_suffix _).subset h1
  rwa [List.mem_reverse] at h2

theorem collapseUnderscorePairs_replicate :
    ∀ n, collapseUnderscorePairs (List.replicate n '_') =
      List.replicate ((n + 1) / 2) '_'
  | 0 => rfl
  | 1 => rfl
  | n + 2 => by
    have ih := collapseUnderscorePairs_replicate n
    have h2 : collapseUnderscorePairs (List.replicate (n + 2) '_') =
        '_' :: collapseUnderscorePairs (List.replicate n '_') := rfl
    rw [h2, ih, show (n + 2 + 1) / 2 = (n + 1) / 2 + 1 by omega]
    rfl

/-! # Claim C10 -/

/-- C10: for every query, IsQuerySafe returns safe (true) whenever
creating the LLM client fails or the classification call returns an
error, and it returns unsafe (false) only when the classifier responds
successfully with content that does not start with `1`. -/
theorem isQuerySafe_error_paths_safe :
    isQuerySafe .clientError = true ∧ isQuerySafe .generateError = true ∧
    ∀ o : ClassifierOutcome,
      isQuerySafe o = false ↔
        ∃ content, o = .success content ∧ ['1'].isPrefixOf content = false := by
  refine ⟨rfl, rfl, fun o => ?_⟩
  cases o with
  | clientError => simp [isQuerySafe]
  | generateError => simp [isQuerySafe]
  | success content => simp [isQuerySafe]

/-! # Claim C3 -/

/-- C3: the claim states that the retrieval mode executed is the one
selected per request through the searchAlgorithm option, with all of
similarity, knn, lexical, hybrid and semantic reachable and error-free.
The code instead dispatches on the container-level `llm.SearchAlgorithm`,
never reads the per-request option, executes only similarity and knn, and
returns "unknown search algorithm" for the lexical, hybrid and semantic
values — contradicting the repository's own HYBRID_SEARCH_README.md and
IMPLEMENTATION_SUMMARY.md.  This theorem evaluates the dispatch at the
failing inputs. -/
theorem askLLMDispatch_ignores_option_and_rejects_new_modes :
    askLLMDispatch SimilaritySearch LexicalSearch = .ok .similarity ∧
    askLLMDispatch KNearestNeighbors SemanticSearch = .ok .knn ∧
    askLLMDispatch LexicalSearch LexicalSearch =
      .error "unknown search algorithm" ∧
    askLLMDispatch HybridSearch HybridSearch =
      .error "unknown search algorithm" ∧
    askLLMDispatch SemanticSearch SemanticSearch =
      .error "unknown search algorithm" ∧
    ∀ containerAlg optionAlg optionAlg' : Int,
      askLLMDispatch containerAlg optionAlg = askLLMDispatch containerAlg optionAlg' :=
  ⟨rfl, rfl, rfl, rfl, rfl, fun _ _ _ => rfl⟩

/-! # Claim C9 -/

theorem fixedChunksAux_stuck_on_leading_space :
    ∀ fuel acc, fixedChunksAux " abcd".data 3 fuel 0 acc = none := by
  intro fuel
  induction fuel with
  | zero => intro acc; rfl
  | succ n ih => intro acc; exact ih (acc ++ [[]])

/-- C9: the claim states that splitTextIntoFixedSizedChunks terminates on
every input and positive chunk size.  On the input `" abcd"` with chunk
size 3 the Go loop finds the last space of the window `" ab"` at index 0,
sets `end = start + 0 = start`, and iterates forever at `start = 0`
appending empty chunks: no amount of loop fuel completes the run. -/
theorem splitTextIntoFixedSizedChunks_nonterminating :
    ∀ fuel, splitTextIntoFixedSizedChunks " abcd".data 3 fuel = none := by
  intro fuel
  unfold splitTextIntoFixedSizedChunks
  rw [if_neg (by decide)]
  exact fixedChunksAux_stuck_on_leading_space fuel []

/-! # Claim C8 -/

/-- C8: the claim states that every `----CHUNK----` block with at least 3
whitespace-separated tokens is processed without out-of-range access, the
keyword set being left unchanged when the `###keywords:### ` marker is
absent.  The code guards the access `content[1]` with `len(content) > 0`,
which always holds, so a marker-less block panics with an index
out-of-range (modelled as `none`); a block carrying the marker is
processed as the claim describes. -/
theorem splitTextWithLLM_markerless_block_panics :
    splitTextWithLLMResponse "alpha beta gamma".data
        "----CHUNK----\nalpha beta gamma".data = none ∧
    splitTextWithLLMResponse "alpha beta gamma".data
        "----CHUNK----\nalpha beta gamma\n###keywords:### k1, k2".data =
      some (["alpha beta gamma\n###keywords:### k1, k2".data],
        ["k1".data, "k2".data], []) :=
  ⟨by decide, by decide⟩

/-! # Claim C6 -/

/-- C6 counterexample: the claim states that runs of consecutive `_`
collapse to a single `_` and that sanitization is idempotent.  On
`"a___b"` the single `ReplaceAll("__","_")` pass yields `"a__b"` (the run
of three shrinks to two, not one), and a second application yields
`"a_b"`, so sanitize ∘ sanitize ≠ sanitize. -/
theorem sanitizeRedisKey_not_idempotent :
    sanitizeRedisKey "a___b".data = "a__b".data ∧
    sanitizeRedisKey (sanitizeRedisKey "a___b".data) = "a_b".data ∧
    sanitizeRedisKey (sanitizeRedisKey "a___b".data) ≠ sanitizeRedisKey "a___b".data :=
  ⟨by decide, by decide, by decide⟩

/-- C6 amended: sanitizeRedisKey replaces each character outside
`[A-Za-z0-9:_-]` with `_`, performs a single left-to-right non-overlapping
`__`→`_` pass — so a run of n underscores shrinks to ⌈n/2⌉, not to 1 —
and trims leading and trailing `_`; it is not idempotent in general.
Provably: every output character is in the allowed class, the output
neither starts nor ends with `_`, and the pair-collapsing pass maps a run
of n underscores to ⌈n/2⌉ = (n+1)/2 of them. -/
theorem sanitizeRedisKey_characterization :
    (∀ l : List Char,
        (∀ c ∈ sanitizeRedisKey l, allowedKeyChar c = true) ∧
        (sanitizeRedisKey l).head? ≠ some '_' ∧
        (sanitizeRedisKey l).getLast? ≠ some '_') ∧
    ∀ n, collapseUnderscorePairs (List.replicate n '_') =
      List.replicate ((n + 1) / 2) '_' := by
  refine ⟨fun l => ⟨?_, ?_, ?_⟩, collapseUnderscorePairs_replicate⟩
  · intro c hc
    exact mem_replaceDisallowed l c
      (collapseUnderscorePairs_subset _ (trimUnderscores_subset _ hc))
  · intro h
    have := head?_dropWhile_ne (fun c => c = '_') _ _ h
    simp at this
  · intro h
    unfold sanitizeRedisKey trimUnderscores dropTrailingUnderscores at h
    set X := collapseUnderscorePairs (replaceDisallowed l) with hX
    set Z := X.reverse.dropWhile (fun c => c = '_') with hZ
    set T := Z.reverse.dropWhile (fun c => c = '_') with hT
    have hTne : T ≠ [] := by
      intro h0; rw [h0] at h; simp at h
    obtain ⟨t, ht⟩ := List.dropWhile_suffix (l := Z.reverse) (fun c => c = '_')
    have hlast : T.getLast? = Z.reverse.getLast? := by
      rw [← ht]
      exact (List.getLast?_append_of_ne_nil t hTne).symm
    rw [hlast, List.getLast?_reverse] at h
    have := head?_dropWhile_ne (fun c => c = '_') X.reverse '_' h
    simp at this

/-- C6 amended witness: the theorem applied to the concrete input `"x"`
and to a run of three underscores. -/
theorem sanitizeRedisKey_characterization_witness :
    allowedKeyChar 'x' = true ∧
    collapseUnderscorePairs (List.replicate 3 '_') = List.replicate 2 '_' :=
  ⟨(sanitizeRedisKey_characterization.1 "x".data).1 'x' (by decide),
   sanitizeRedisKey_characterization.2 3⟩

/-! # Claim C7 -/

/-- C7 counterexample: the claim states that every config accepted by the
validation (each weight in [0,1]) has weights summing to 1 after
normalization.  The config with both weights 0 passes the validation, the
normalization divides by the zero total (Go float64 produces NaN; the
rational model produces 0), and the resulting sum is 0, not 1. -/
theorem hybridWeights_zero_config_counterexample :
    validateAndNormalizeWeights zeroWeightConfig = .ok zeroWeightConfig ∧
    zeroWeightConfig.vectorWeight + zeroWeightConfig.lexicalWeight ≠ 1 := by
  constructor
  · unfold validateAndNormalizeWeights zeroWeightConfig
    norm_num
  · unfold zeroWeightConfig
    norm_num

/-- C7 amended: every config accepted by HybridSearch's validation whose
weight total is positive satisfies vectorWeight + lexicalWeight = 1 after
the normalization step (in exact arithmetic; when both weights are 0 the
config is still accepted but the normalization divides by zero). -/
theorem validateAndNormalizeWeights_sum_one
    (c c' : HybridSearchConfig)
    (hpos : 0 < c.vectorWeight + c.lexicalWeight)
    (h : validateAndNormalizeWeights c = .ok c') :
    c'.vectorWeight + c'.lexicalWeight = 1 := by
  unfold validateAndNormalizeWeights at h
  split_ifs at h with h1 h2 h3
  · cases h
    show c.vectorWeight / (c.vectorWeight + c.lexicalWeight) +
      c.lexicalWeight / (c.vectorWeight + c.lexicalWeight) = 1
    rw [div_add_div_same, div_self (ne_of_gt hpos)]
  · cases h
    push_neg at h3
    exact h3

/-- C7 amended witness: the theorem applied to the concrete config with
weights (1/2, 1/4), normalized to (2/3, 1/3). -/
theorem validateAndNormalizeWeights_sum_one_witness :
    (2 : ℚ) / 3 + 1 / 3 = 1 :=
  validateAndNormalizeWeights_sum_one unnormalizedConfig
    { unnormalizedConfig with vectorWeight := 2/3, lexicalWeight := 1/3 }
    (by norm_num [unnormalizedConfig])
    (by unfold validateAndNormalizeWeights unnormalizedConfig; norm_num)

/-! # Claim C5 -/

/-- C5 counterexample: the claim states the lexical retriever keeps only
tokens of length > 3 and returns an empty result without a search call
when every token has length ≤ 3.  The query `"abc"` consists of one token
of length 3; the code keeps it (its threshold is length > 2) and issues
`FT.SEARCH` with the query `(@content:*abc*)`. -/
theorem performLexicalSearch_length3_counterexample :
    lexicalTokens "abc".data = ["abc".data] ∧
    utf8Len "abc".data = 3 ∧
    lexicalKeywords "abc".data = ["abc".data] ∧
    performLexicalSearchPlan "abc".data = some "(@content:*abc*)".data :=
  ⟨by decide, by decide, by decide, by decide⟩

theorem lexFragment_ne_nil (kw : List Char) : lexFragment kw ≠ [] := by
  have h : lexFragment kw = '(' :: ("@content:*".data ++ kw ++ "*)".data) := rfl
  rw [h]
  exact List.cons_ne_nil _ _

theorem buildLexicalQuery_eq_nil_iff (kws : List (List Char)) :
    buildLexicalQuery kws = [] ↔ kws = [] := by
  cases kws with
  | nil => simp [buildLexicalQuery]
  | cons k ks =>
    cases ks with
    | nil =>
      simp only [buildLexicalQuery]
      exact ⟨fun h => absurd h (lexFragment_ne_nil k), fun h => by cases h⟩
    | cons k2 ks2 =>
      simp only [buildLexicalQuery]
      constructor
      · intro h
        exact absurd (List.append_eq_nil.mp
          (List.append_eq_nil.mp h).1).1 (lexFragment_ne_nil k)
      · intro h; cases h

/-- C5 amended: the lexical retriever keeps the tokens of byte length > 2
(after splitting the query on newlines and on runs of space, comma and
period), and it returns an empty result without issuing FT.SEARCH exactly
when every token of the query has byte length ≤ 2. -/
theorem performLexicalSearchPlan_none_iff (query : List Char) :
    performLexicalSearchPlan query = none ↔
      ∀ w ∈ lexicalTokens query, utf8Len w ≤ 2 := by
  have h1 : performLexicalSearchPlan query = none ↔ lexicalKeywords query = [] := by
    show (if buildLexicalQuery (lexicalKeywords query) = [] then none
      else some (buildLexicalQuery (lexicalKeywords query))) = none ↔
      lexicalKeywords query = []
    split_ifs with hb
    · simp only [true_iff]
      exact (buildLexicalQuery_eq_nil_iff _).mp hb
    · constructor
      · intro h; cases h
      · intro h
        exact absurd ((buildLexicalQuery_eq_nil_iff _).mpr h) hb
  rw [h1]
  unfold lexicalKeywords lexicalTokens
  rw [List.flatMap_eq_nil_iff]
  constructor
  · rintro h w hw
    rw [List.mem_flatMap] at hw
    obtain ⟨line, hline, hwline⟩ := hw
    have h2 := h line hline
    rw [List.filterMap_eq_nil_iff] at h2
    have h3 := h2 w hwline
    by_contra hlen
    push_neg at hlen
    rw [if_pos hlen] at h3
    cases h3
  · intro h line hline
    rw [List.filterMap_eq_nil_iff]
    intro w hw
    rw [if_neg]
    intro hlt
    exact absurd (h w (List.mem_flatMap.mpr ⟨line, hline, hw⟩)) (by omega)

/-- C5 amended witness: the theorem applied to the concrete query
`"ab"`, whose only token has byte length 2. -/
theorem performLexicalSearchPlan_none_iff_witness :
    performLexicalSearchPlan "ab".data = none :=
  (performLexicalSearchPlan_none_iff "ab".data).mpr (by decide)

/-! # Streaming interceptor lemmas -/

theorem streamStep_eq (rr : Bool) (s : StreamState) (c : List Char) :
    streamStep rr s c =
      routeChunk rr
        { s with totalTokens := s.totalTokens + 1, isFirstChunk := false,
                 failedToRespond := (firstWordStep s.isFirstWord s.failedToRespond c).2.1,
                 isFirstWord := (firstWordStep s.isFirstWord s.failedToRespond c).2.2 }
        (firstWordStep s.isFirstWord s.failedToRespond c).1 := rfl

theorem routeChunk_failed (rr : Bool) (s1 : StreamState) (ch : List Char) :
    (routeChunk rr s1 ch).failedToRespond = s1.failedToRespond := by
  unfold routeChunk
  split_ifs <;> rfl

theorem routeChunk_isFirstWord (rr : Bool) (s1 : StreamState) (ch : List Char) :
    (routeChunk rr s1 ch).isFirstWord = s1.isFirstWord := by
  unfold routeChunk
  split_ifs <;> rfl

theorem routeChunk_forwarded_extends (rr : Bool) (s1 : StreamState) (ch : List Char) :
    ∃ t, (routeChunk rr s1 ch).forwarded = s1.forwarded ++ t := by
  unfold routeChunk
  split_ifs
  · exact ⟨[], by simp⟩
  · exact ⟨[], by simp⟩
  · exact ⟨[ch], rfl⟩

theorem firstWordStep_false (failed : Bool) (c : List Char) :
    firstWordStep false failed c = (c, failed, false) := by
  unfold firstWordStep
  simp

theorem firstWordStep_failed_mono (fw : Bool) (c : List Char) :
    (firstWordStep fw true c).2.1 = true := by
  unfold firstWordStep
  split_ifs <;> simp

theorem streamStep_forwarded_extends (rr : Bool) (s : StreamState) (c : List Char) :
    ∃ t, (streamStep rr s c).forwarded = s.forwarded ++ t := by
  rw [streamStep_eq]
  exact routeChunk_forwarded_extends rr _ _

theorem foldl_streamStep_forwarded_extends (rr : Bool) :
    ∀ (chunks : List (List Char)) (s : StreamState),
      ∃ t, (chunks.foldl (streamStep rr) s).forwarded = s.forwarded ++ t := by
  intro chunks
  induction chunks with
  | nil => exact fun s => ⟨[], by simp⟩
  | cons c cs ih =>
    intro s
    obtain ⟨t1, h1⟩ := streamStep_forwarded_extends rr s c
    obtain ⟨t2, h2⟩ := ih (streamStep rr s c)
    exact ⟨t1 ++ t2, by rw [List.foldl_cons, h2, h1, List.append_assoc]⟩

theorem streamStep_failed_mono (rr : Bool) (s : StreamState) (c : List Char)
    (h : s.failedToRespond = true) :
    (streamStep rr s c).failedToRespond = true := by
  rw [streamStep_eq, routeChunk_failed]
  show (firstWordStep s.isFirstWord s.failedToRespond c).2.1 = true
  rw [h]
  exact firstWordStep_failed_mono _ _

theorem foldl_streamStep_failed_mono (rr : Bool) :
    ∀ (chunks : List (List Char)) (s : StreamState),
      s.failedToRespond = true →
      (chunks.foldl (streamStep rr) s).failedToRespond = true := by
  intro chunks
  induction chunks with
  | nil => exact fun s h => h
  | cons c cs ih =>
    intro s h
    exact ih _ (streamStep_failed_mono rr s c h)

theorem streamStep_firstWord_over (rr : Bool) (s : StreamState) (c : List Char)
    (h : s.isFirstWord = false) :
    (streamStep rr s c).isFirstWord = false ∧
    (streamStep rr s c).failedToRespond = s.failedToRespond := by
  constructor
  · rw [streamStep_eq, routeChunk_isFirstWord]
    show (firstWordStep s.isFirstWord s.failedToRespond c).2.2 = false
    rw [h, firstWordStep_false]
  · rw [streamStep_eq, routeChunk_failed]
    show (firstWordStep s.isFirstWord s.failedToRespond c).2.1 = s.failedToRespond
    rw [h, firstWordStep_false]

theorem foldl_streamStep_firstWord_over (rr : Bool) :
    ∀ (chunks : List (List Char)) (s : StreamState),
      s.isFirstWord = false →
      (chunks.foldl (streamStep rr) s).failedToRespond = s.failedToRespond := by
  intro chunks
  induction chunks with
  | nil => exact fun s _ => rfl
  | cons c cs ih =>
    intro s h
    obtain ⟨hfw, hfail⟩ := streamStep_firstWord_over rr s c h
    rw [List.foldl_cons, ih _ hfw, hfail]

theorem streamStep_diverted (s : StreamState) (c : List Char)
    (hs : s.startRefs = true) (hf : s.isFirstWord = false) :
    streamStep true s c =
      { s with totalTokens := s.totalTokens + 1, isFirstChunk := false,
               refsStr := s.refsStr ++ c } := by
  rw [streamStep_eq, hf, firstWordStep_false]
  simp [routeChunk, hs, hf]

theorem foldl_streamStep_diverted :
    ∀ (chunks : List (List Char)) (s : StreamState),
      s.startRefs = true → s.isFirstWord = false →
      (chunks.foldl (streamStep true) s).forwarded = s.forwarded ∧
      (chunks.foldl (streamStep true) s).refsStr = s.refsStr ++ chunks.flatten := by
  intro chunks
  induction chunks with
  | nil => exact fun s _ _ => ⟨rfl, by simp⟩
  | cons c cs ih =>
    intro s hs hf
    rw [List.foldl_cons, streamStep_diverted s c hs hf]
    obtain ⟨h1, h2⟩ := ih { s with totalTokens := s.totalTokens + 1, isFirstChunk := false, refsStr := s.refsStr ++ c } hs hf
    refine ⟨h1, ?_⟩
    rw [h2]
    simp

/-! # Claim C1 -/

/-- C1 counterexample: the claim states that whenever the first non-space
character of the stream is `@` the result has FailedToRespond = true and
the forwarded stream omits that `@`.  For the stream delivered as the two
chunks `" "` and `"@"` the first non-space character is `@`, yet the code
— which only ever looks at the first byte of each chunk and stops looking
after a chunk that starts with a space — reports FailedToRespond = false
and forwards the `@` chunk unchanged. -/
theorem askLLM_refusal_first_nonspace_counterexample :
    specFirstNonSpaceChar [[' '], ['@']] = some '@' ∧
    (askLLMStreamResult false [[' '], ['@']]).failedToRespond = false ∧
    (askLLMStreamResult false [[' '], ['@']]).forwarded = [[' '], ['@']] :=
  ⟨by decide, by decide, by decide⟩

/-- C1 amended: the refusal sentinel is detected per chunk during a
first-word phase rather than on the first non-space character of the
stream.  (1) If the first chunk starts with `@`, FailedToRespond is true
and that chunk is forwarded first with the `@` stripped; (2) a
single-chunk stream whose chunk starts with any other character yields
FailedToRespond = false and is forwarded unmodified (unless the chunk is
exactly the `⧉` sentinel, which is swallowed); (3) once a chunk starting
with a space arrives first, FailedToRespond stays false for the whole
stream no matter what follows. -/
theorem askLLM_refusal_detection_per_chunk :
    (∀ (rr : Bool) (cs : List Char) (rest : List (List Char)),
        cs ≠ [refSentinel] →
        (askLLMStreamResult rr (('@' :: cs) :: rest)).failedToRespond = true ∧
        (askLLMStreamResult rr (('@' :: cs) :: rest)).forwarded.head? = some cs) ∧
    (∀ (rr : Bool) (c : Char) (cs : List Char),
        c ≠ '@' →
        (askLLMStreamResult rr [c :: cs]).failedToRespond = false ∧
        (c :: cs = [refSentinel] ∨
          (askLLMStreamResult rr [c :: cs]).forwarded = [c :: cs])) ∧
    (∀ (rr : Bool) (cs : List Char) (rest : List (List Char)),
        (askLLMStreamResult rr ((' ' :: cs) :: rest)).failedToRespond = false) := by
  refine ⟨fun rr cs rest hcs => ?_, fun rr c cs hc => ?_, fun rr cs rest => ?_⟩
  · have hs1 : streamStep rr initStreamState ('@' :: cs) =
        { isFirstWord := true, isFirstChunk := false, startRefs := false,
          failedToRespond := true, refsStr := [], forwarded := [cs],
          totalTokens := 1 } := by
      simp [streamStep, firstWordStep, routeChunk, initStreamState, hcs]
    unfold askLLMStreamResult runStream
    rw [List.foldl_cons, hs1]
    constructor
    · exact foldl_streamStep_failed_mono rr rest _ rfl
    · obtain ⟨t, ht⟩ := foldl_streamStep_forwarded_extends rr rest
        { isFirstWord := true, isFirstChunk := false, startRefs := false,
          failedToRespond := true, refsStr := [], forwarded := [cs],
          totalTokens := 1 }
      simp only [ht]
      rfl
  · unfold askLLMStreamResult runStream
    rw [List.foldl_cons, List.foldl_nil]
    by_cases href : c :: cs = [refSentinel]
    · refine ⟨?_, Or.inl href⟩
      by_cases hsp : c = ' ' <;>
        simp [streamStep, firstWordStep, routeChunk, initStreamState,
          refSentinel, hc, hsp, href]
    · have hne : ¬(c = '⧉' ∧ cs = []) := by
        rintro ⟨rfl, rfl⟩
        exact href rfl
      refine ⟨?_, Or.inr ?_⟩ <;>
        · by_cases hsp : c = ' ' <;>
            simp [streamStep, firstWordStep, routeChunk, initStreamState,
              refSentinel, hc, hsp, hne]
  · have hs1 : streamStep rr initStreamState (' ' :: cs) =
        { isFirstWord := false, isFirstChunk := false, startRefs := false,
          failedToRespond := false, refsStr := [], forwarded := [' ' :: cs],
          totalTokens := 1 } := by
      simp [streamStep, firstWordStep, routeChunk, initStreamState, refSentinel]
    unfold askLLMStreamResult runStream
    rw [List.foldl_cons, hs1]
    exact foldl_streamStep_firstWord_over rr rest _ rfl

/-- C1 amended witness: the three parts of the theorem at concrete
streams. -/
theorem askLLM_refusal_detection_per_chunk_witness :
    (askLLMStreamResult false ["@Hi".data, "there".data]).failedToRespond = true ∧
    (askLLMStreamResult false ["Hi".data]).failedToRespond = false ∧
    (askLLMStreamResult false [" x".data, "@y".data]).failedToRespond = false :=
  ⟨(askLLM_refusal_detection_per_chunk.1 false "Hi".data ["there".data]
      (by decide)).1,
   (askLLM_refusal_detection_per_chunk.2.1 false 'H' "i".data (by decide)).1,
   askLLM_refusal_detection_per_chunk.2.2 false "x".data ["@y".data]⟩

/-! # Claim C2 -/

/-- C2 counterexample: the claim states that once `⧉` appears in the
stream, the `⧉` and everything after it are not forwarded, and that a
stream containing `⧉ {"references":["a","b"]}` yields LLMReferences =
["a","b"].  When that text arrives inside a single chunk the code — which
only recognises a chunk exactly equal to `"⧉"` — forwards the whole chunk,
sentinel included, and extracts no references. -/
theorem askLLM_reference_sentinel_counterexample :
    (askLLMStreamResult true
        ["⧉ \x7b\"references\":[\"a\",\"b\"]\x7d".data]).forwarded =
      ["⧉ \x7b\"references\":[\"a\",\"b\"]\x7d".data] ∧
    (askLLMStreamResult true
        ["⧉ \x7b\"references\":[\"a\",\"b\"]\x7d".data]).llmReferences = [] :=
  ⟨by decide, by decide⟩

/-- C2 amended: (1) whenever the reference flag is set and reference mode
is enabled, every subsequent chunk is appended to the references buffer
and nothing further is forwarded; (2) the reference flag is set by a chunk
exactly equal to `"⧉"`, which is itself swallowed, so the stream
`["Hello", "⧉", " {"references":["a","b"]}"]` with reference mode on
forwards only `"Hello"` and yields LLMReferences = ["a","b"]; (3) with
reference mode off only the exact `"⧉"` chunk is dropped and subsequent
chunks are still forwarded. -/
theorem askLLM_reference_diversion :
    (∀ (s : StreamState) (chunks : List (List Char)),
        s.startRefs = true → s.isFirstWord = false →
        (chunks.foldl (streamStep true) s).forwarded = s.forwarded ∧
        (chunks.foldl (streamStep true) s).refsStr = s.refsStr ++ chunks.flatten) ∧
    askLLMStreamResult true
        ["Hello".data, [refSentinel], " \x7b\"references\":[\"a\",\"b\"]\x7d".data] =
      { failedToRespond := false, forwarded := ["Hello".data],
        llmReferences := ["a".data, "b".data] } ∧
    (askLLMStreamResult false [[refSentinel], "after".data]).forwarded =
      ["after".data] :=
  ⟨fun s chunks hs hf => foldl_streamStep_diverted chunks s hs hf,
   by decide, by decide⟩

/-- C2 amended witness: the diversion invariant applied to a concrete
mid-stream state and chunk list. -/
theorem askLLM_reference_diversion_witness :
    (["xy".data].foldl (streamStep true) divertedProbeState).forwarded = [] ∧
    (["xy".data].foldl (streamStep true) divertedProbeState).refsStr = "xy".data := by
  have h := askLLM_reference_diversion.1 divertedProbeState ["xy".data] rfl rfl
  simpa [divertedProbeState] using h

/-! # Embedding store lemmas -/

theorem deleteKeysSeq_rawDoc :
    ∀ (ks : List String) (s : RedisModel), (deleteKeysSeq s ks).rawDoc = s.rawDoc := by
  intro ks
  induction ks with
  | nil => exact fun s => rfl
  | cons k ks ih => exact fun s => ih (deleteRedisWildCard s k)

theorem mem_deleteKeysSeq_chunks :
    ∀ (ks : List String) (s : RedisModel) (c : String),
      c ∈ (deleteKeysSeq s ks).chunks ↔
        c ∈ s.chunks ∧ ∀ k ∈ ks, c ≠ deleteWildCardPattern k := by
  intro ks
  induction ks with
  | nil => intro s c; simp [deleteKeysSeq]
  | cons k ks ih =>
    intro s c
    rw [show deleteKeysSeq s (k :: ks) =
      deleteKeysSeq (deleteRedisWildCard s k) ks from rfl, ih]
    simp only [deleteRedisWildCard, List.mem_filter, List.forall_mem_cons,
      Bool.not_eq_eq_eq_not, Bool.not_true, beq_eq_false_iff_ne, ne_eq]
    tauto

theorem EmbeddText_fresh (s0 : RedisModel) (pfx index cid : String)
    (c : LLMEmbeddingContent) (nk ng : List String) (h0 : s0.rawDoc = none) :
    EmbeddText s0 pfx index cid c nk ng =
      ((nk ++ ng).map StoreOp.addChunk ++ [StoreOp.saveRecord],
       ⟨s0.chunks ++ nk ++ ng,
        some ⟨pfx, index, [(cid, updatedContent c cid nk ng)]⟩⟩) := by
  simp [EmbeddText, h0, lookupContent, zeroContent, deleteKeysSeq]

theorem EmbeddText_overwrite (s : RedisModel) (pfx index cid : String)
    (c : LLMEmbeddingContent) (nk ng : List String)
    (obj : LLMEmbeddingObject) (cur : LLMEmbeddingContent)
    (hdoc : s.rawDoc = some obj)
    (hcur : lookupContent cid obj.Contents = some cur) :
    EmbeddText s pfx index cid c nk ng =
      ((nk ++ ng).map StoreOp.addChunk ++
         (cur.Keys ++ cur.GeneralKeys).map StoreOp.delPattern ++
         [StoreOp.saveRecord],
       ⟨(deleteKeysSeq
           (deleteKeysSeq ⟨s.chunks ++ nk ++ ng, s.rawDoc⟩ cur.Keys)
           cur.GeneralKeys).chunks,
        some ⟨obj.EmbeddingPfx, obj.Index,
              (cid, updatedContent c cid nk ng) :: obj.Contents⟩⟩) := by
  simp [EmbeddText, hdoc, hcur]

/-! # Claim C4 -/

/-- C4: after two successive EmbeddText calls for the same
(prefix, index, content id) — with the embedder producing fresh key sets
disjoint from the first call's, which already match their own delete
pattern as generated keys do — the record lists exactly the second call's
keys, none of the first call's chunks is still retrievable, all of the
second call's chunks are, and in the second call's operation trace every
deletion of an old key precedes the record save. -/
theorem EmbeddText_overwrite_replaces_keys
    (s0 : RedisModel) (pfx index cid : String) (c1 c2 : LLMEmbeddingContent)
    (k1 g1 k2 g2 : List String)
    (h0 : s0.rawDoc = none)
    (hsan : ∀ k ∈ k1 ++ g1, deleteWildCardPattern k = k)
    (hdisj : ∀ k ∈ k2 ++ g2, k ∉ k1 ++ g1) :
    (((EmbeddText (EmbeddText s0 pfx index cid c1 k1 g1).2
          pfx index cid c2 k2 g2).2.rawDoc.bind
        (fun o => lookupContent cid o.Contents)).map
          (fun c => (c.Keys, c.GeneralKeys)) = some (k2, g2)) ∧
    (∀ k ∈ k1 ++ g1,
        k ∉ (EmbeddText (EmbeddText s0 pfx index cid c1 k1 g1).2
          pfx index cid c2 k2 g2).2.chunks) ∧
    (∀ k ∈ k2 ++ g2,
        k ∈ (EmbeddText (EmbeddText s0 pfx index cid c1 k1 g1).2
          pfx index cid c2 k2 g2).2.chunks) ∧
    ((EmbeddText (EmbeddText s0 pfx index cid c1 k1 g1).2
        pfx index cid c2 k2 g2).1 =
      (k2 ++ g2).map StoreOp.addChunk ++
        (k1 ++ g1).map StoreOp.delPattern ++ [StoreOp.saveRecord]) := by
  have h1 := EmbeddText_fresh s0 pfx index cid c1 k1 g1 h0
  set nc1 : LLMEmbeddingContent := updatedContent c1 cid k1 g1 with hnc1
  set obj1 : LLMEmbeddingObject := ⟨pfx, index, [(cid, nc1)]⟩ with hobj1
  set S1 : RedisModel := ⟨s0.chunks ++ k1 ++ g1, some obj1⟩ with hS1
  have hS1eq : (EmbeddText s0 pfx index cid c1 k1 g1).2 = S1 := by rw [h1]
  have hcur : lookupContent cid obj1.Contents = some nc1 := by
    simp [lookupContent, hobj1]
  have h2 := EmbeddText_overwrite S1 pfx index cid c2 k2 g2 obj1 nc1 rfl hcur
  rw [hS1eq, h2]
  have hKeys : nc1.Keys = k1 := rfl
  have hGKeys : nc1.GeneralKeys = g1 := rfl
  refine ⟨?_, ?_, ?_, ?_⟩
  · simp [lookupContent, updatedContent]
  · intro k hk
    rw [mem_deleteKeysSeq_chunks, mem_deleteKeysSeq_chunks]
    rintro ⟨⟨-, hk1⟩, hg1⟩
    rcases List.mem_append.mp hk with h | h
    · exact hk1 k (by rw [hKeys]; exact h) (hsan k hk).symm
    · exact hg1 k (by rw [hGKeys]; exact h) (hsan k hk).symm
  · intro k hk
    rw [mem_deleteKeysSeq_chunks, mem_deleteKeysSeq_chunks]
    have hnotold := hdisj k hk
    refine ⟨⟨?_, ?_⟩, ?_⟩
    · show k ∈ S1.chunks ++ k2 ++ g2
      rcases List.mem_append.mp hk with h | h
      · simp [h]
      · simp [h]
    · intro k' hk'
      rw [hKeys] at hk'
      rw [hsan k' (List.mem_append.mpr (Or.inl hk'))]
      intro hkk
      exact hnotold (hkk ▸ List.mem_append.mpr (Or.inl hk'))
    · intro k' hk'
      rw [hGKeys] at hk'
      rw [hsan k' (List.mem_append.mpr (Or.inr hk'))]
      intro hkk
      exact hnotold (hkk ▸ List.mem_append.mpr (Or.inr hk'))
  · rw [hKeys, hGKeys]

/-- C4 witness: the theorem at a concrete store and concrete fresh keys. -/
theorem EmbeddText_overwrite_replaces_keys_witness :
    ((EmbeddText (EmbeddText ⟨[], none⟩ "p" "i" "c" zeroContent
          ["doc:p:1"] ["doc:all:1"]).2
        "p" "i" "c" zeroContent ["doc:p:2"] ["doc:all:2"]).2.rawDoc.bind
        (fun o => lookupContent "c" o.Contents)).map
          (fun c => (c.Keys, c.GeneralKeys)) =
      some (["doc:p:2"], ["doc:all:2"]) :=
  (EmbeddText_overwrite_replaces_keys ⟨[], none⟩ "p" "i" "c"
    zeroContent zeroContent ["doc:p:1"] ["doc:all:1"] ["doc:p:2"] ["doc:all:2"]
    rfl (by decide) (by decide)).1

end Aillm
